/-
Verification of the Thinker-Qt core (ThinkerManager / ThinkerRunner) against
its natural-language specification.

Shallow embedding of src/src/thinkermanager.cpp and src/src/thinkerrunner.h.
Thinkers, runners and threads are identified by natural numbers.  The two
Qt maps guarded by the maps mutex become function-valued maps; each
mutex-protected C++ critical section becomes one atomic Lean function.
`hopefully(cond, HERE)` assertions become `Option`-valued results: `none`
means the assertion fired (a fatal programming error in the source's error
taxonomy).

The ThinkerRunner implementation file (thinkerrunner.cpp) is not part of
the sources; where a claim depends on Runner-side behaviour, the
corresponding definition is modelled from the specification (§4.2) and
carries a doc comment starting `Modelled from the spec:`.
-/
import Mathlib

namespace ThinkerQt

/-- The user-visible state of a `ThinkerBase` (thinker.h: enum referenced in
thinkermanager.cpp as `ThinkerBase::ThinkerOwnedByRunner`,
`ThinkerBase::ThinkerFinished`, `ThinkerBase::ThinkerCanceled`). -/
inductive ThinkerState where
  | OwnedByRunner
  | Finished
  | Canceled
deriving DecidableEq, Repr

/-- The `ThinkerRunner::State` enum from src/src/thinkerrunner.h lines 60-69:
RunnerInitializing, RunnerThinking, RunnerPausing, RunnerPaused,
RunnerCanceling, RunnerCanceled, RunnerResuming, RunnerFinished. -/
inductive RunnerState where
  | Initializing
  | Thinking
  | Pausing
  | Paused
  | Canceling
  | Canceled
  | Resuming
  | Finished
deriving DecidableEq, Repr

/-- A runner state is terminal when it is Canceled or Finished. -/
def RunnerState.isTerminal : RunnerState → Bool
  | .Canceled => true
  | .Finished => true
  | _ => false

/-- A thinker state is terminal when it is Canceled or Finished. -/
def ThinkerState.isTerminal : ThinkerState → Bool
  | .Canceled => true
  | .Finished => true
  | _ => false

/--
`ThinkerRunner::hopefullyCurrentThreadIsPooled` from src/src/thinkerrunner.h
lines 105-111: the body ignores the calling thread and the codeplace and
returns `true` unconditionally (the real check against the manager is
commented out with a TODO).  `currentThread` is the identity of the calling
thread, `cp` the codeplace argument.
-/
def hopefullyCurrentThreadIsPooled (currentThread : Nat) (cp : Nat) : Bool :=
  true

/--
`ThinkerManager::hopefullyThreadIsManager` from thinkermanager.cpp lines
55-58: returns whether the argued thread equals the thread the manager
lives on (`&thread == this->thread()`).  `managerThread` is the manager's
recorded thread identity.
-/
def hopefullyThreadIsManager (managerThread : Nat) (thread : Nat) : Bool :=
  thread == managerThread

/-- C10: ThinkerRunner::hopefullyCurrentThreadIsPooled returns true for every
calling thread and every code location — the pooled-thread check is vacuous
and can never fail, unlike the controller-thread check
hopefullyThreadIsManager, which does fail on a wrong thread. -/
theorem pooled_thread_check_vacuous :
    (∀ t cp : Nat, hopefullyCurrentThreadIsPooled t cp = true) ∧
    hopefullyThreadIsManager 0 1 = false := by
  constructor
  · intro t cp
    rfl
  · rfl

/-!
## The Manager's map state and its mutex-guarded map operations

thinkermanager.cpp guards `thinkerMap` with `mapsMutex`; each critical
section becomes one atomic Lean function on `MgrState`.  The map
`thinkerMap : thinker → runner` is a function map `tmap`; `tstate` is the
per-thinker user-visible `ThinkerBase::state` field (written inside
`removeFromThinkerMap`'s critical section and by the manager operations
that set it directly); `submitted` is a ghost flag recording that a
thinker was at some point handed to `createRunnerForThinker` (i.e. ever
inserted into the map); `poolQueue` records runnables handed to
`QThreadPool::globalInstance()->start`.
-/

structure MgrState where
  tmap : Nat → Option Nat
  tstate : Nat → ThinkerState
  submitted : Nat → Bool
  poolQueue : List Nat

/-- The state change performed inside `addToThinkerMap`'s critical section
(thinkermanager.cpp lines 246-249): insert `(thinker, runner)` into the map
and mark the thinker as submitted (ghost). -/
def applyAdd (m : MgrState) (thinker runner : Nat) : MgrState :=
  { m with
    tmap := fun t => if t = thinker then some runner else m.tmap t
    submitted := fun t => if t = thinker then true else m.submitted t }

/-- `ThinkerManager::addToThinkerMap` (thinkermanager.cpp lines 240-250):
under the maps mutex, `hopefully(not thinkerMap.contains(&thinker), HERE)`
then `thinkerMap.insert(&thinker, runner)`.  `none` models the assertion
firing on double insertion. -/
def addToThinkerMap (m : MgrState) (thinker runner : Nat) : Option MgrState :=
  match m.tmap thinker with
  | some _ => none
  | none => some (applyAdd m thinker runner)

/-- The state change performed inside `removeFromThinkerMap`'s critical
section (thinkermanager.cpp lines 257-265): remove the thinker's entry and
write the terminal thinker state chosen by `wasCanceled`, both under the
same hold of the maps mutex. -/
def applyRemove (m : MgrState) (thinker : Nat) (wasCanceled : Bool) : MgrState :=
  { m with
    tmap := fun t => if t = thinker then none else m.tmap t
    tstate := fun t =>
      if t = thinker then
        if wasCanceled then ThinkerState.Canceled else ThinkerState.Finished
      else m.tstate t }

/-- `ThinkerManager::removeFromThinkerMap` (thinkermanager.cpp lines
253-266): under the maps mutex, `hopefully(thinkerMap.remove(&thinker) == 1)`
(the thinker must be a key), `hopefully(thinker.state == ThinkerOwnedByRunner)`,
then `thinker.state = wasCanceled ? ThinkerCanceled : ThinkerFinished`.
The thinker argument stands for `runner->getThinker()`. -/
def removeFromThinkerMap (m : MgrState) (thinker : Nat) (wasCanceled : Bool) :
    Option MgrState :=
  match m.tmap thinker with
  | none => none
  | some _ =>
      if m.tstate thinker = ThinkerState.OwnedByRunner then
        some (applyRemove m thinker wasCanceled)
      else none

/-- `ThinkerManager::maybeGetRunnerForThinker` (thinkermanager.cpp lines
161-173): under the maps mutex, read `thinkerMap.value(&thinker, nullptr)`;
if the result is null, `hopefully` the thinker state is Canceled or
Finished.  The outer `Option` is the assertion (`none` = it fired); the
inner `Option Nat` is the returned runner-or-null. -/
def maybeGetRunnerForThinker (m : MgrState) (thinker : Nat) :
    Option (Option Nat) :=
  match m.tmap thinker with
  | some r => some (some r)
  | none =>
      if (m.tstate thinker).isTerminal then some none else none

/-- `ThinkerManager::createRunnerForThinker` (thinkermanager.cpp lines
85-107): constructs a `ThinkerRunner` for the thinker, constructs a
`ThinkerRunnerProxy` around it, and queues the proxy on the global thread
pool before returning.

Modelled from the spec: the `ThinkerRunnerProxy` constructor body lives in
thinkerrunner.cpp, which is not among the sources; the comment at
thinkermanager.cpp lines 93-97 ("ThinkerRunners maintain a global table
which they insert themselves into on construction") and spec §4.1 say the
proxy's construction inserts the runner into ThinkerMap.  So the model is:
`addToThinkerMap` (proxy construction, line 91), then append the runnable
to the pool queue (line 106). -/
def createRunnerForThinker (m : MgrState) (thinker runner : Nat) :
    Option MgrState :=
  match addToThinkerMap m thinker runner with
  | none => none
  | some m1 => some { m1 with poolQueue := m1.poolQueue ++ [runner] }

/-- The branch of `ThinkerManager::requestAndWaitForCancelButAlreadyCanceledIsOkay`
taken when `maybeGetRunnerForThinker` returns null (thinkermanager.cpp line
188): write `thinker.state = ThinkerCanceled` directly.  Its guard in the
program is that the lookup found no runner (and hence, by the lookup's own
assertion, the state was already terminal). -/
def applyCancelDirect (m : MgrState) (thinker : Nat) : MgrState :=
  { m with
    tstate := fun t => if t = thinker then ThinkerState.Canceled else m.tstate t }

/-- The write `thinker.state = ThinkerBase::ThinkerFinished` at
thinkermanager.cpp line 217 (inside `ensureThinkerFinished`, after
`waitForFinished` returned and the runner has unregistered itself). -/
def applyFinishDirect (m : MgrState) (thinker : Nat) : MgrState :=
  { m with
    tstate := fun t => if t = thinker then ThinkerState.Finished else m.tstate t }

/-!
## Reachable manager states

One step of the manager's life, as far as the thinker map and the
user-visible thinker states are concerned.  The `add` step carries the
call-site fact that the inserted thinker is freshly created and still
`OwnedByRunner` (the proxy constructor inserts the thinker just created
and handed to `createRunnerForThinker`; `ThinkerBase` construction is in
thinker.cpp, outside the sources — modelled from spec §3: a thinker is
created owned and "released to terminal state on runner exit").  The two
direct writes are guarded by the lookup having found no runner, as at
their call sites (thinkermanager.cpp lines 187-188 and 203-217).
-/

inductive MgrStep : MgrState → MgrState → Prop where
  | add (m : MgrState) (thinker runner : Nat)
      (hfresh : m.tstate thinker = ThinkerState.OwnedByRunner)
      (hmap : m.tmap thinker = none) :
      MgrStep m (applyAdd m thinker runner)
  | remove (m : MgrState) (thinker : Nat) (wasCanceled : Bool)
      (hmap : (m.tmap thinker).isSome)
      (hstate : m.tstate thinker = ThinkerState.OwnedByRunner) :
      MgrStep m (applyRemove m thinker wasCanceled)
  | cancelDirect (m : MgrState) (thinker : Nat)
      (hmap : m.tmap thinker = none)
      (hterm : (m.tstate thinker).isTerminal = true) :
      MgrStep m (applyCancelDirect m thinker)
  | finishDirect (m : MgrState) (thinker : Nat)
      (hmap : m.tmap thinker = none)
      (hterm : (m.tstate thinker).isTerminal = true) :
      MgrStep m (applyFinishDirect m thinker)

/-- The initial manager state: empty maps, no thinker submitted yet; every
(future) thinker starts in the created state `OwnedByRunner`. -/
def initMgr : MgrState where
  tmap := fun _ => none
  tstate := fun _ => ThinkerState.OwnedByRunner
  submitted := fun _ => false
  poolQueue := []

/-- Manager states reachable from `initMgr` by `MgrStep` steps. -/
inductive MgrReach : MgrState → Prop where
  | init : MgrReach initMgr
  | step {m m' : MgrState} : MgrReach m → MgrStep m m' → MgrReach m'

/-- Invariant: every thinker that is a key of the map has user-visible
state `OwnedByRunner`, and every submitted thinker not in the map is in a
terminal state. -/
def MgrInv (m : MgrState) : Prop :=
  ∀ t : Nat,
    ((m.tmap t).isSome → m.tstate t = ThinkerState.OwnedByRunner) ∧
    (m.submitted t = true → m.tmap t = none → (m.tstate t).isTerminal = true)

theorem mgrInv_init : MgrInv initMgr := by
  intro t
  constructor
  · intro h
    simp [initMgr] at h
  · intro hsub
    simp [initMgr] at hsub

theorem mgrInv_step {m m' : MgrState} (hinv : MgrInv m) (hstep : MgrStep m m') :
    MgrInv m' := by
  cases hstep with
  | add thinker runner hfresh hmap =>
      intro t
      constructor
      · intro h
        by_cases ht : t = thinker
        · subst ht
          simpa [applyAdd] using hfresh
        · simp only [applyAdd, ht, if_false] at h ⊢
          exact (hinv t).1 h
      · intro hsub hnone
        by_cases ht : t = thinker
        · subst ht
          simp [applyAdd] at hnone
        · simp only [applyAdd, ht, if_false] at hsub hnone ⊢
          exact (hinv t).2 hsub hnone
  | remove thinker wasCanceled hmap hstate =>
      intro t
      constructor
      · intro h
        by_cases ht : t = thinker
        · subst ht
          simp [applyRemove] at h
        · simp only [applyRemove, ht, if_false] at h ⊢
          exact (hinv t).1 h
      · intro hsub hnone
        by_cases ht : t = thinker
        · subst ht
          cases wasCanceled <;> simp [applyRemove, ThinkerState.isTerminal]
        · simp only [applyRemove, ht, if_false] at hsub hnone ⊢
          exact (hinv t).2 hsub hnone
  | cancelDirect thinker hmap hterm =>
      intro t
      constructor
      · intro h
        by_cases ht : t = thinker
        · subst ht
          simp only [applyCancelDirect] at h
          rw [hmap] at h
          simp at h
        · simp only [applyCancelDirect, ht, if_false]
          exact (hinv t).1 h
      · intro hsub hnone
        by_cases ht : t = thinker
        · subst ht
          simp [applyCancelDirect, ThinkerState.isTerminal]
        · simp only [applyCancelDirect, ht, if_false]
          exact (hinv t).2 hsub hnone
  | finishDirect thinker hmap hterm =>
      intro t
      constructor
      · intro h
        by_cases ht : t = thinker
        · subst ht
          simp only [applyFinishDirect] at h
          rw [hmap] at h
          simp at h
        · simp only [applyFinishDirect, ht, if_false]
          exact (hinv t).1 h
      · intro hsub hnone
        by_cases ht : t = thinker
        · subst ht
          simp [applyFinishDirect, ThinkerState.isTerminal]
        · simp only [applyFinishDirect, ht, if_false]
          exact (hinv t).2 hsub hnone

theorem mgrInv_reach {m : MgrState} (h : MgrReach m) : MgrInv m := by
  induction h with
  | init => exact mgrInv_init
  | step _ hstep ih => exact mgrInv_step ih hstep

/-- A manager state that satisfies the claimed two-way coherence at thinker 0:
thinker 0 is not a key of the map, and its state is not OwnedByRunner. -/
def cexMgr : MgrState where
  tmap := fun _ => none
  tstate := fun _ => ThinkerState.Canceled
  submitted := fun _ => true
  poolQueue := []

/-- C1 counterexample: the two-way coherence invariant ("a thinker is a key
of ThinkerMap iff thinker.state == Owned-By-Runner") is not preserved by
every sequence of addToThinkerMap/removeFromThinkerMap operations.  From a
state satisfying the iff at thinker 0 (not in the map, state Canceled),
`addToThinkerMap` succeeds — its only guard is that the thinker is not
already a key (thinkermanager.cpp line 248); it never inspects
thinker.state — and the resulting state has thinker 0 in the map with
state Canceled, violating the iff. -/
theorem map_state_coherence_cex :
    (cexMgr.tmap 0 = none ∧ cexMgr.tstate 0 = ThinkerState.Canceled) ∧
    (addToThinkerMap cexMgr 0 1).elim False
      (fun m1 => (m1.tmap 0).isSome = true ∧
        m1.tstate 0 ≠ ThinkerState.OwnedByRunner) := by
  refine ⟨⟨rfl, rfl⟩, ?_⟩
  simp [addToThinkerMap, applyAdd, cexMgr]

/-- C1 (amended): for every sequence of addToThinkerMap /
removeFromThinkerMap operations in which addToThinkerMap is only applied to
freshly created thinkers (state Owned-By-Runner), every thinker that is a
key of ThinkerMap has state Owned-By-Runner; and removeFromThinkerMap
removes the key and writes the terminal state (Canceled when wasCanceled,
else Finished) in the same critical section, requiring the prior state to
be Owned-By-Runner. -/
theorem map_state_coherence :
    (∀ m : MgrState, MgrReach m → ∀ t : Nat,
      (m.tmap t).isSome → m.tstate t = ThinkerState.OwnedByRunner) ∧
    (∀ m m' : MgrState, ∀ t : Nat, ∀ wc : Bool,
      removeFromThinkerMap m t wc = some m' →
        m.tstate t = ThinkerState.OwnedByRunner ∧
        m'.tmap t = none ∧
        m'.tstate t =
          (if wc then ThinkerState.Canceled else ThinkerState.Finished)) := by
  constructor
  · intro m hm t h
    exact (mgrInv_reach hm t).1 h
  · intro m m' t wc h
    unfold removeFromThinkerMap at h
    cases hmap : m.tmap t with
    | none => rw [hmap] at h; exact absurd h (by simp)
    | some r =>
        rw [hmap] at h
        by_cases hst : m.tstate t = ThinkerState.OwnedByRunner
        · rw [if_pos hst] at h
          refine ⟨hst, ?_, ?_⟩
          · cases h
            simp [applyRemove]
          · cases h
            simp [applyRemove]
        · rw [if_neg hst] at h
          exact absurd h (by simp)

/-- Witness for the amended C1 at a concrete reachable state: after adding
thinker 0 with runner 5 to the initial manager, thinker 0's state is
Owned-By-Runner; removing it with wasCanceled = true leaves it out of the
map with state Canceled. -/
theorem map_state_coherence_witness :
    (applyAdd initMgr 0 5).tstate 0 = ThinkerState.OwnedByRunner ∧
    ((applyRemove (applyAdd initMgr 0 5) 0 true).tmap 0 = none ∧
      (applyRemove (applyAdd initMgr 0 5) 0 true).tstate 0 =
        ThinkerState.Canceled) := by
  constructor
  · exact map_state_coherence.1 (applyAdd initMgr 0 5)
      (MgrReach.step MgrReach.init (MgrStep.add initMgr 0 5 rfl rfl)) 0
      (by simp [applyAdd, initMgr])
  · have h := map_state_coherence.2 (applyAdd initMgr 0 5)
      (applyRemove (applyAdd initMgr 0 5) 0 true) 0 true
      (by simp [removeFromThinkerMap, applyAdd, initMgr])
    exact ⟨h.2.1, h.2.2⟩

/-- C7: for every reachable manager state and every thinker that was
submitted to the manager, maybeGetRunnerForThinker returns (no assertion
fires), and whenever it returns the null sentinel the thinker's state is
terminal (Canceled or Finished). -/
theorem lookup_null_only_terminal :
    ∀ m : MgrState, MgrReach m → ∀ t : Nat, m.submitted t = true →
      (maybeGetRunnerForThinker m t).isSome = true ∧
      (maybeGetRunnerForThinker m t = some none →
        (m.tstate t).isTerminal = true) := by
  intro m hm t hsub
  cases hmap : m.tmap t with
  | some r =>
      constructor
      · simp [maybeGetRunnerForThinker, hmap]
      · intro h
        simp [maybeGetRunnerForThinker, hmap] at h
  | none =>
      have hterm := (mgrInv_reach hm t).2 hsub hmap
      constructor
      · simp [maybeGetRunnerForThinker, hmap, hterm]
      · intro _
        exact hterm

/-- Witness for C7 at a concrete reachable state: after adding thinker 0
(runner 5) and removing it as canceled, the lookup returns without firing
its assertion. -/
theorem lookup_null_only_terminal_witness :
    (maybeGetRunnerForThinker (applyRemove (applyAdd initMgr 0 5) 0 true)
      0).isSome = true := by
  have hreach : MgrReach (applyRemove (applyAdd initMgr 0 5) 0 true) :=
    MgrReach.step (MgrReach.step MgrReach.init (MgrStep.add initMgr 0 5 rfl rfl))
      (MgrStep.remove (applyAdd initMgr 0 5) 0 true
        (by simp [applyAdd, initMgr]) (by simp [applyAdd, initMgr]))
  exact (lookup_null_only_terminal _ hreach 0 (by simp [applyRemove, applyAdd, initMgr])).1

/-- C4: createRunnerForThinker, given a thinker that is not yet a key of
ThinkerMap, succeeds; on return the thinker is a key of ThinkerMap (mapped
to the new runner, inserted by the ThinkerRunnerProxy construction) and
the runner has been submitted to the worker pool queue. -/
theorem createRunnerForThinker_registers (m : MgrState) (t r : Nat)
    (h : m.tmap t = none) :
    ∃ m', createRunnerForThinker m t r = some m' ∧
      m'.tmap t = some r ∧ r ∈ m'.poolQueue := by
  refine ⟨{ applyAdd m t r with poolQueue := m.poolQueue ++ [r] }, ?_, ?_, ?_⟩
  · simp [createRunnerForThinker, addToThinkerMap, h, applyAdd]
  · simp [applyAdd]
  · simp

/-- Witness for C4: creating runner 5 for thinker 0 on the initial manager
registers thinker 0 and queues runner 5. -/
theorem createRunnerForThinker_registers_witness :
    ∃ m', createRunnerForThinker initMgr 0 5 = some m' ∧
      m'.tmap 0 = some 5 ∧ 5 ∈ m'.poolQueue :=
  createRunnerForThinker_registers initMgr 0 5 rfl

/-!
## Runner-side operations

The ThinkerRunner implementation (thinkerrunner.cpp) is not among the
sources; the declarations are in src/src/thinkerrunner.h.  The operations
below are modelled from the specification §4.2.
-/

/-- Modelled from the spec: `ThinkerRunner::isCanceled` (declared
thinkerrunner.h line 168; body in the missing thinkerrunner.cpp).  §4.2:
a snapshot predicate of the state under the signal mutex. -/
def isCanceled : RunnerState → Bool
  | .Canceled => true
  | _ => false

/-- Modelled from the spec: `ThinkerRunner::isFinished` (declared
thinkerrunner.h line 167; body in the missing thinkerrunner.cpp). -/
def isFinished : RunnerState → Bool
  | .Finished => true
  | _ => false

/-- Modelled from the spec: `ThinkerRunner::isPaused` (declared
thinkerrunner.h line 169; body in the missing thinkerrunner.cpp). -/
def isPaused : RunnerState → Bool
  | .Paused => true
  | _ => false

theorem isPaused_iff (s : RunnerState) :
    isPaused s = true ↔ s = RunnerState.Paused := by
  cases s <;> simp [isPaused]

/-- Modelled from the spec: `ThinkerRunner::requestCancelCore` (declared
thinkerrunner.h line 129; body in the missing thinkerrunner.cpp).  §4.2:
"request-cancel(allow-already-canceled?) — valid from any non-terminal
state: {Thinking→Canceling, Pausing→Canceling, Paused→Canceled,
Finished→Canceled, Canceled→Canceled (idempotent iff allowed)}"; the
remaining non-terminal states (Initializing, Resuming) go to Canceling,
and a second cancel landing in Canceling is a no-op.  `none` models the
assertion on a disallowed already-canceled cancel. -/
def requestCancelCore (isAlreadyCanceledOkay : Bool) :
    RunnerState → Option RunnerState
  | .Initializing => some .Canceling
  | .Thinking => some .Canceling
  | .Pausing => some .Canceling
  | .Paused => some .Canceled
  | .Resuming => some .Canceling
  | .Canceling => some .Canceling
  | .Finished => some .Canceled
  | .Canceled =>
      if isAlreadyCanceledOkay then some .Canceled else none

/-- Modelled from the spec: `ThinkerRunner::requestResumeCore` (declared
thinkerrunner.h line 130; body in the missing thinkerrunner.cpp).  §4.2:
"request-resume(allow-canceled?) — if state is Paused, set Resuming; if
Canceled and allowed, no-op"; "request-resume on a non-Paused runner is a
no-op when the allow-canceled flag is set; otherwise an assertion." -/
def requestResumeCore (isCanceledOkay : Bool) :
    RunnerState → Option RunnerState
  | .Paused => some .Resuming
  | .Canceled => if isCanceledOkay then some .Canceled else none
  | s => if isCanceledOkay then some s else none

/-- Modelled from the spec: the terminal state the worker reaches after a
cancel request has been issued, which `ThinkerRunner::waitForFinished`
observes (§4.2 worker body steps 5(b) and 7: from Canceling the worker's
next poll raises the stop signal, unwinds, and transitions to Canceled;
from Canceled it stays).  `none` for states from which a canceled runner
does not progress to a terminal state. -/
def terminalAfterCancel : RunnerState → Option RunnerState
  | .Canceling => some .Canceled
  | .Canceled => some .Canceled
  | _ => none

/-- `ThinkerManager::requestAndWaitForCancelButAlreadyCanceledIsOkay`
(thinkermanager.cpp lines 184-195) on one thinker.  `runner` is the result
of `maybeGetRunnerForThinker` (the runner's state, or none for the null
sentinel); `tstate` the thinker's user-visible state at entry.  Null
branch: `thinker.state = ThinkerCanceled` directly.  Runner branch:
`requestCancelButAlreadyCanceledIsOkay` then `waitForFinished`; the
runner's exit then removes it from the map, writing the thinker state
from `wasCanceled` (modelled by `terminalAfterCancel` plus the
`removeFromThinkerMap` write, which asserts the prior thinker state is
OwnedByRunner).  Both branches end in the function's final
`hopefully(thinker.state == ThinkerCanceled, HERE)`. -/
def requestAndWaitForCancel (runner : Option RunnerState)
    (tstate : ThinkerState) : Option ThinkerState :=
  match runner with
  | none =>
      let t := ThinkerState.Canceled
      if t = ThinkerState.Canceled then some t else none
  | some rs =>
      match requestCancelCore true rs with
      | none => none
      | some rs1 =>
          match terminalAfterCancel rs1 with
          | none => none
          | some rsF =>
              if tstate = ThinkerState.OwnedByRunner then
                let t := if rsF = RunnerState.Canceled
                  then ThinkerState.Canceled else ThinkerState.Finished
                if t = ThinkerState.Canceled then some t else none
              else none

/-- C2: request-and-wait-cancel terminates with thinker state Canceled:
with no runner it marks the thinker Canceled directly (whatever its prior
terminal state); with a live runner (thinker owned) it requests cancel —
accepted from every runner state — and after awaiting the runner's
terminal state the thinker is Canceled.  Moreover
request-cancel(allow-already=true) is idempotent: a second call after a
first returns the same state as the first. -/
theorem requestAndWaitForCancel_postcondition :
    (∀ ts : ThinkerState, requestAndWaitForCancel none ts =
      some ThinkerState.Canceled) ∧
    (∀ rs : RunnerState,
      requestAndWaitForCancel (some rs) ThinkerState.OwnedByRunner =
        some ThinkerState.Canceled) ∧
    (∀ s s1 : RunnerState, requestCancelCore true s = some s1 →
      requestCancelCore true s1 = some s1) := by
  refine ⟨?_, ?_, ?_⟩
  · intro ts
    rfl
  · intro rs
    cases rs <;> rfl
  · intro s s1 h
    cases s <;> simp [requestCancelCore] at h <;> simp [← h, requestCancelCore]

/-- Witness for C2 at concrete inputs: canceling a Thinking runner yields
Canceling, and a second cancel leaves it at Canceling. -/
theorem requestAndWaitForCancel_postcondition_witness :
    requestAndWaitForCancel (some RunnerState.Thinking)
      ThinkerState.OwnedByRunner = some ThinkerState.Canceled ∧
    requestCancelCore true RunnerState.Canceling =
      some RunnerState.Canceling :=
  ⟨requestAndWaitForCancel_postcondition.2.1 RunnerState.Thinking,
   requestAndWaitForCancel_postcondition.2.2 RunnerState.Thinking
     RunnerState.Canceling rfl⟩

/-!
## ensureThinkerFinished

thinkermanager.cpp lines 198-221.  The controller observes the runner's
state at three points: the `isCanceled` check (line 205), the `isPaused`
check (line 210), and the state `waitForFinished` returns on (line 215,
necessarily terminal).  Because other threads may transition the runner
between these observations, the embedding takes the three observed states
as inputs.
-/

structure EnsureEnv where
  runnerPresent : Bool
  stateAtCancelCheck : RunnerState
  stateAtPausedCheck : RunnerState
  stateAfterWaitFinished : RunnerState
  thinkerState : ThinkerState
deriving DecidableEq, Repr

/-- `ThinkerManager::ensureThinkerFinished` (thinkermanager.cpp lines
198-221).  If a runner exists: `hopefully(not runner->isCanceled())`; if
`isPaused`, `requestResume` (allow-canceled = false) and `waitForResume`;
`waitForFinished`; `hopefully(runner->isFinished())`;
`thinker.state = ThinkerFinished`.  In all cases the function ends with
`hopefully(thinker.state == ThinkerFinished)`.  Returns the final thinker
state, or `none` when an assertion fired. -/
def ensureThinkerFinished (e : EnsureEnv) : Option ThinkerState :=
  if e.runnerPresent then
    if isCanceled e.stateAtCancelCheck then none
    else
      match
        (if isPaused e.stateAtPausedCheck then
          requestResumeCore false e.stateAtPausedCheck
        else some e.stateAtPausedCheck) with
      | none => none
      | some _ =>
          if isFinished e.stateAfterWaitFinished then
            some ThinkerState.Finished
          else none
  else
    if e.thinkerState = ThinkerState.Finished then
      some ThinkerState.Finished
    else none

/-- The concurrent-cancellation scenario: a runner exists, is Thinking at
both controller checks, and `waitForFinished` observes Canceled because the
runner was canceled from another thread between the check and the wait. -/
def envConcurrentCancel : EnsureEnv where
  runnerPresent := true
  stateAtCancelCheck := RunnerState.Thinking
  stateAtPausedCheck := RunnerState.Thinking
  stateAfterWaitFinished := RunnerState.Canceled
  thinkerState := ThinkerState.OwnedByRunner

/-- C3 counterexample: when the runner is canceled concurrently between the
not-Canceled check (which it passes: the runner is Thinking there) and the
wait (which observes the terminal state Canceled), ensureThinkerFinished
does not return with the thinker state Finished — the
`hopefully(runner->isFinished(), HERE)` assertion at thinkermanager.cpp
line 216 fires instead. -/
theorem ensureThinkerFinished_cex :
    isCanceled envConcurrentCancel.stateAtCancelCheck = false ∧
    (envConcurrentCancel.stateAfterWaitFinished).isTerminal = true ∧
    ensureThinkerFinished envConcurrentCancel ≠ some ThinkerState.Finished ∧
    ensureThinkerFinished envConcurrentCancel = none := by
  refine ⟨rfl, rfl, ?_, rfl⟩
  intro h
  simp [ensureThinkerFinished, envConcurrentCancel, isCanceled, isPaused,
    isFinished] at h

/-- C3 (amended): ensureThinkerFinished on the controller thread: if no
Runner exists it asserts the thinker is already Finished (returns Finished
exactly when it was); otherwise it asserts the Runner is not Canceled at
the check, resumes it if Paused, awaits a terminal state, and returns with
the thinker's user-visible state Finished exactly when the awaited
terminal state is Finished; if the Runner was canceled concurrently after
the not-Canceled check, the isFinished assertion fires (programming
error) instead of returning Finished. -/
theorem ensureThinkerFinished_spec :
    ∀ e : EnsureEnv,
      (e.runnerPresent = true → isCanceled e.stateAtCancelCheck = false →
        isFinished e.stateAfterWaitFinished = true →
        ensureThinkerFinished e = some ThinkerState.Finished) ∧
      (e.runnerPresent = true → isCanceled e.stateAtCancelCheck = true →
        ensureThinkerFinished e = none) ∧
      (e.runnerPresent = true → isCanceled e.stateAtCancelCheck = false →
        e.stateAfterWaitFinished = RunnerState.Canceled →
        ensureThinkerFinished e = none) ∧
      (e.runnerPresent = false →
        (ensureThinkerFinished e = some ThinkerState.Finished ↔
          e.thinkerState = ThinkerState.Finished)) := by
  intro e
  refine ⟨?_, ?_, ?_, ?_⟩
  · intro hp hc hf
    cases hpau : isPaused e.stateAtPausedCheck
    · simp [ensureThinkerFinished, hp, hc, hpau, hf]
    · have : e.stateAtPausedCheck = RunnerState.Paused := by
        rw [← isPaused_iff]
        exact hpau
      simp [ensureThinkerFinished, hp, hc, hpau, this, requestResumeCore, hf,
        isPaused]
  · intro hp hc
    simp [ensureThinkerFinished, hp, hc]
  · intro hp hc hcanc
    cases hpau : isPaused e.stateAtPausedCheck
    · simp [ensureThinkerFinished, hp, hc, hpau, hcanc, isFinished]
    · have : e.stateAtPausedCheck = RunnerState.Paused := by
        rw [← isPaused_iff]
        exact hpau
      simp [ensureThinkerFinished, hp, hc, hpau, this, requestResumeCore,
        hcanc, isFinished, isPaused]
  · intro hp
    constructor
    · intro h
      by_cases ht : e.thinkerState = ThinkerState.Finished
      · exact ht
      · simp [ensureThinkerFinished, hp, ht] at h
    · intro ht
      simp [ensureThinkerFinished, hp, ht]

/-- Witness for the amended C3: a present runner, Thinking at the cancel
check, Paused at the pause check, Finished after the wait — the call
returns with the thinker state Finished. -/
theorem ensureThinkerFinished_spec_witness :
    ensureThinkerFinished
      { runnerPresent := true
        stateAtCancelCheck := RunnerState.Thinking
        stateAtPausedCheck := RunnerState.Paused
        stateAfterWaitFinished := RunnerState.Finished
        thinkerState := ThinkerState.OwnedByRunner } =
      some ThinkerState.Finished :=
  (ensureThinkerFinished_spec _).1 rfl rfl rfl

/-!
## ensureThinkersPaused (thinkermanager.cpp lines 109-136)

The function copies `thinkerMap` under the maps mutex, unlocks, and then
works only on the copy (`mapCopy`), never touching the live map again.
The embedding takes the snapshot (the runner values of the copy, in
iteration order) and produces the trace of runner interactions: the first
`while` loop calls `requestPauseButCanceledIsOkay` on each runner, then
`i.toFront()`, then the second `while` loop calls
`waitForPauseButCanceledIsOkay` on each.
-/

inductive PauseEvent where
  | requestPause (r : Nat)
  | waitForPause (r : Nat)
deriving DecidableEq, Repr

def PauseEvent.isRequest : PauseEvent → Bool
  | .requestPause _ => true
  | .waitForPause _ => false

/-- First pass of ensureThinkersPaused (lines 122-126): request every
snapshotted runner to pause, accepting already-canceled. -/
def pauseRequestPass : List Nat → List PauseEvent
  | [] => []
  | r :: rest => PauseEvent.requestPause r :: pauseRequestPass rest

/-- Second pass of ensureThinkersPaused (lines 131-135): wait on every
snapshotted runner for the pause to be reached, accepting already-canceled. -/
def pauseWaitPass : List Nat → List PauseEvent
  | [] => []
  | r :: rest => PauseEvent.waitForPause r :: pauseWaitPass rest

/-- `ThinkerManager::ensureThinkersPaused` (thinkermanager.cpp lines
109-136) as the trace of its runner interactions over the snapshot taken
under the maps mutex: the complete request pass, then the wait pass. -/
def ensureThinkersPaused (snapshot : List Nat) : List PauseEvent :=
  pauseRequestPass snapshot ++ pauseWaitPass snapshot

theorem pauseRequestPass_eq (l : List Nat) :
    pauseRequestPass l = l.map PauseEvent.requestPause := by
  induction l with
  | nil => rfl
  | cons r rest ih => simp [pauseRequestPass, ih]

theorem pauseWaitPass_eq (l : List Nat) :
    pauseWaitPass l = l.map PauseEvent.waitForPause := by
  induction l with
  | nil => rfl
  | cons r rest ih => simp [pauseWaitPass, ih]

/-- The event at position `i` of the ensureThinkersPaused trace is a
request exactly when `i` falls in the first (request) phase. -/
theorem ensureThinkersPaused_isRequest (snapshot : List Nat) (i : Nat)
    (hi : i < (ensureThinkersPaused snapshot).length) :
    ((ensureThinkersPaused snapshot)[i]).isRequest =
      decide (i < snapshot.length) := by
  simp only [ensureThinkersPaused] at hi ⊢
  rw [List.getElem_append]
  by_cases hcase : i < (pauseRequestPass snapshot).length
  · rw [dif_pos hcase]
    have h2 : i < snapshot.length := by
      rw [pauseRequestPass_eq] at hcase
      simpa using hcase
    simp only [pauseRequestPass_eq, List.getElem_map, PauseEvent.isRequest]
    simp [h2]
  · rw [dif_neg hcase]
    have h2 : ¬ i < snapshot.length := by
      rw [pauseRequestPass_eq] at hcase
      simpa using hcase
    simp only [pauseWaitPass_eq, List.getElem_map, PauseEvent.isRequest]
    simp [h2]

/-- C5: ensureThinkersPaused is two-phase over the snapshot: every
snapshotted runner receives both a pause request and a pause wait, every
event concerns a snapshotted runner, and in the trace every pause request
strictly precedes every wait — no wait is interleaved before all requests
are issued. -/
theorem ensureThinkersPaused_two_phase :
    ∀ snapshot : List Nat,
      (∀ r ∈ snapshot,
        PauseEvent.requestPause r ∈ ensureThinkersPaused snapshot ∧
        PauseEvent.waitForPause r ∈ ensureThinkersPaused snapshot) ∧
      (∀ r : Nat,
        (PauseEvent.requestPause r ∈ ensureThinkersPaused snapshot →
          r ∈ snapshot) ∧
        (PauseEvent.waitForPause r ∈ ensureThinkersPaused snapshot →
          r ∈ snapshot)) ∧
      (∀ i j : Nat,
        ∀ hi : i < (ensureThinkersPaused snapshot).length,
        ∀ hj : j < (ensureThinkersPaused snapshot).length,
        ((ensureThinkersPaused snapshot)[i]).isRequest = true →
        ((ensureThinkersPaused snapshot)[j]).isRequest = false →
        i < j) := by
  intro snapshot
  refine ⟨?_, ?_, ?_⟩
  · intro r hr
    constructor
    · refine List.mem_append.mpr (Or.inl ?_)
      rw [pauseRequestPass_eq]
      exact List.mem_map_of_mem _ hr
    · refine List.mem_append.mpr (Or.inr ?_)
      rw [pauseWaitPass_eq]
      exact List.mem_map_of_mem _ hr
  · intro r
    constructor
    · intro h
      rcases List.mem_append.mp h with h' | h'
      · rw [pauseRequestPass_eq] at h'
        obtain ⟨a, ha, heq⟩ := List.mem_map.mp h'
        cases heq
        exact ha
      · rw [pauseWaitPass_eq] at h'
        obtain ⟨a, ha, heq⟩ := List.mem_map.mp h'
        simp at heq
    · intro h
      rcases List.mem_append.mp h with h' | h'
      · rw [pauseRequestPass_eq] at h'
        obtain ⟨a, ha, heq⟩ := List.mem_map.mp h'
        simp at heq
      · rw [pauseWaitPass_eq] at h'
        obtain ⟨a, ha, heq⟩ := List.mem_map.mp h'
        cases heq
        exact ha
  · intro i j hi hj hreq hwait
    have h1 := ensureThinkersPaused_isRequest snapshot i hi
    have h2 := ensureThinkersPaused_isRequest snapshot j hj
    rw [hreq] at h1
    rw [hwait] at h2
    have hi2 : i < snapshot.length := by simpa using h1.symm
    have hj2 : ¬ j < snapshot.length := by simpa using h2.symm
    omega

/-- Witness for C5 at a concrete snapshot: with runners 1 and 2, runner 2's
request is in the trace, and position 3 (a wait) comes after position 0 (a
request). -/
theorem ensureThinkersPaused_two_phase_witness :
    PauseEvent.requestPause 2 ∈ ensureThinkersPaused [1, 2] ∧
    (0 : Nat) < 3 :=
  ⟨((ensureThinkersPaused_two_phase [1, 2]).1 2 (by decide)).1,
   (ensureThinkersPaused_two_phase [1, 2]).2.2 0 3 (by decide) (by decide)
     (by decide) (by decide)⟩

/-!
## ensureThinkersResumed (thinkermanager.cpp lines 138-152)

Iterates `thinkerMap` under the maps mutex; for every runner with
`isPaused()` it calls `requestResumeButCanceledIsOkay`.  The embedding
takes the map contents (runner identity with its observed state, in
iteration order) and returns the runners that receive a resume request.
-/

def ensureThinkersResumed : List (Nat × RunnerState) → List Nat
  | [] => []
  | (r, s) :: rest =>
      if isPaused s then r :: ensureThinkersResumed rest
      else ensureThinkersResumed rest

/-- C8: ensureThinkersResumed issues a resume request to exactly those
runners of ThinkerMap whose state is Paused at inspection time: every
resumed runner is a map entry in state Paused (so runners in any other
state, Canceled included, are untouched, and no runner outside the map is
contacted), and every Paused map entry is resumed. -/
theorem ensureThinkersResumed_exactly_paused :
    ∀ m : List (Nat × RunnerState),
      (∀ r : Nat, r ∈ ensureThinkersResumed m →
        (r, RunnerState.Paused) ∈ m) ∧
      (∀ p ∈ m, p.2 = RunnerState.Paused →
        p.1 ∈ ensureThinkersResumed m) := by
  intro m
  induction m with
  | nil =>
      constructor
      · intro r hr
        simp [ensureThinkersResumed] at hr
      · intro p hp
        simp at hp
  | cons hd tl ih =>
      obtain ⟨r0, s0⟩ := hd
      constructor
      · intro r hr
        by_cases hps : isPaused s0 = true
        · rw [isPaused_iff] at hps
          subst hps
          have hcons : ensureThinkersResumed ((r0, RunnerState.Paused) :: tl) =
              r0 :: ensureThinkersResumed tl := by
            simp [ensureThinkersResumed, isPaused]
          rw [hcons] at hr
          rcases List.mem_cons.mp hr with hr' | hr'
          · subst hr'
            exact List.mem_cons_self _ _
          · exact List.mem_cons_of_mem _ (ih.1 r hr')
        · simp only [Bool.not_eq_true] at hps
          have hcons : ensureThinkersResumed ((r0, s0) :: tl) =
              ensureThinkersResumed tl := by
            simp [ensureThinkersResumed, hps]
          rw [hcons] at hr
          exact List.mem_cons_of_mem _ (ih.1 r hr)
      · intro p hp hpaused
        rcases List.mem_cons.mp hp with hp | hp
        · subst hp
          simp only at hpaused
          subst hpaused
          simp [ensureThinkersResumed, isPaused]
        · have hmem := ih.2 p hp hpaused
          by_cases hps : isPaused s0 = true
          · simp [ensureThinkersResumed, hps]
            exact Or.inr hmem
          · simp only [Bool.not_eq_true] at hps
            simpa [ensureThinkersResumed, hps] using hmem

/-- Witness for C8 at a concrete map: of runners 1 (Paused), 2 (Canceled),
3 (Thinking), exactly runner 1 is contacted. -/
theorem ensureThinkersResumed_exactly_paused_witness :
    (1, RunnerState.Paused) ∈
      [(1, RunnerState.Paused), (2, RunnerState.Canceled),
        (3, RunnerState.Thinking)] ∧
    (1 : Nat) ∈ ensureThinkersResumed
      [(1, RunnerState.Paused), (2, RunnerState.Canceled),
        (3, RunnerState.Thinking)] ∧
    ensureThinkersResumed
      [(1, RunnerState.Paused), (2, RunnerState.Canceled),
        (3, RunnerState.Thinking)] = [1] := by
  refine ⟨by simp, ?_, by simp [ensureThinkersResumed, isPaused]⟩
  exact (ensureThinkersResumed_exactly_paused _).2
    (1, RunnerState.Paused) (by simp) rfl

/-!
## The Manager destructor (thinkermanager.cpp lines 328-349)

Under the maps mutex it iterates `thinkerMap`, asserting
`runner->isCanceled() or runner->isFinished()` for each registered runner
and recording in `anyRunners` whether any entry was seen; after releasing
the mutex, it calls `QThreadPool::globalInstance()->waitForDone()` iff
`anyRunners`.  The embedding takes the registered runners' states and
returns whether the pool drain was awaited, or `none` when the assertion
fired.
-/

def managerDestructor : List RunnerState → Option Bool
  | [] => some false
  | s :: rest =>
      if isCanceled s || isFinished s then
        match managerDestructor rest with
        | none => none
        | some _ => some true
      else none

theorem isCanceled_or_isFinished_iff (s : RunnerState) :
    (isCanceled s || isFinished s) = true ↔ s.isTerminal = true := by
  cases s <;> simp [isCanceled, isFinished, RunnerState.isTerminal]

/-- C9: at Manager destruction, if every registered runner is terminal
(Canceled or Finished) the destructor completes and awaits the worker
pool's drain exactly when some runner is still registered; a single
non-terminal registered runner makes the terminal-state assertion fire (a
programming error). -/
theorem managerDestructor_spec :
    ∀ runners : List RunnerState,
      ((∀ s ∈ runners, s.isTerminal = true) →
        managerDestructor runners = some (!runners.isEmpty)) ∧
      (∀ s ∈ runners, s.isTerminal = false →
        managerDestructor runners = none) := by
  intro runners
  induction runners with
  | nil =>
      constructor
      · intro _
        rfl
      · intro s hs
        simp at hs
  | cons hd tl ih =>
      constructor
      · intro hall
        have hhd : hd.isTerminal = true := hall hd (by simp)
        have htl : managerDestructor tl = some (!tl.isEmpty) :=
          ih.1 (fun s hs => hall s (List.mem_cons_of_mem _ hs))
        simp only [managerDestructor,
          (isCanceled_or_isFinished_iff hd).mpr hhd, if_true, htl]
        rfl
      · intro s hs hnt
        rcases List.mem_cons.mp hs with hs | hs
        · subst hs
          have hbool : (isCanceled s || isFinished s) = false := by
            rw [Bool.eq_false_iff]
            intro hcontra
            rw [isCanceled_or_isFinished_iff] at hcontra
            rw [hcontra] at hnt
            simp at hnt
          simp [managerDestructor, hbool]
        · have htl := ih.2 s hs hnt
          cases hbool : (isCanceled hd || isFinished hd) <;>
            simp [managerDestructor, hbool, htl]

/-- Witness for C9 at concrete inputs: with a Canceled and a Finished
runner still registered the destructor passes its assertions and awaits
the pool drain; with a Thinking runner registered the terminal-state
assertion fires. -/
theorem managerDestructor_spec_witness :
    managerDestructor [RunnerState.Canceled, RunnerState.Finished] =
      some true ∧
    managerDestructor [RunnerState.Thinking] = none :=
  ⟨(managerDestructor_spec [RunnerState.Canceled, RunnerState.Finished]).1
      (by decide),
   (managerDestructor_spec [RunnerState.Thinking]).2 RunnerState.Thinking
      (by decide) (by decide)⟩

/-!
## The move-to-thread push protocol (thinkermanager.cpp lines 289-325)

Worker side `waitForPushToThread`: under the push mutex, insert the runner
into `runnerSetToPush`, `threadsNeedPushing.wakeOne()`, emit the
`pushToThreadMayBeNeeded` (queued) notification, and wait on
`threadsWerePushed`.  Controller side `processThreadPushesUntil(runner)`:
under the push mutex, loop: push every runner in the set (recording
whether the target was among them), clear the set, wake all waiters of
`threadsWerePushed`; return if the target was found or no target was
given; otherwise wait on `threadsNeedPushing` and repeat with whatever the
set then holds.  The embedding passes the pending-set contents explicitly:
`arrivals` lists, for each `threadsNeedPushing` wait, the set contents
found after waking; `none` models blocking forever because no further
insertion arrives.
-/

inductive WorkerPushEvent where
  | insertedIntoQueue (r : Nat)
  | wokeNeedsPush
  | emittedQueuedNotification
  | blockedOnWerePushed
deriving DecidableEq, Repr

/-- `ThinkerManager::waitForPushToThread` (thinkermanager.cpp lines
289-298): returns the push-set after the insertion together with the
ordered worker-side events of the critical section. -/
def waitForPushToThread (pushSet : List Nat) (runner : Nat) :
    List Nat × List WorkerPushEvent :=
  (runner :: pushSet,
   [WorkerPushEvent.insertedIntoQueue runner,
    WorkerPushEvent.wokeNeedsPush,
    WorkerPushEvent.emittedQueuedNotification,
    WorkerPushEvent.blockedOnWerePushed])

inductive PushEvent where
  | pushed (r : Nat)
  | clearedAndBroadcast
  | waitedNeedsPush
deriving DecidableEq, Repr

/-- `ThinkerManager::processThreadPushesUntil` (thinkermanager.cpp lines
301-319): each `forever` iteration pushes every runner of the current set
(`doThreadPushIfNecessary`), notes whether the target runner was among
them, clears the set and broadcasts `threadsWerePushed`; it returns if the
target was found or there is no target, and otherwise waits on
`threadsNeedPushing` and continues with the next set contents. -/
def processThreadPushesUntil (target : Option Nat) :
    List Nat → List (List Nat) → Option (List PushEvent)
  | pushSet, arrivals =>
      let evs := pushSet.map PushEvent.pushed ++ [PushEvent.clearedAndBroadcast]
      let found := match target with
        | none => false
        | some r => pushSet.contains r
      if found || target.isNone then some evs
      else
        match arrivals with
        | [] => none
        | batch :: rest =>
            match processThreadPushesUntil target batch rest with
            | none => none
            | some tl => some (evs ++ PushEvent.waitedNeedsPush :: tl)

/-- `ThinkerManager::doThreadPushesIfNecessary` (thinkermanager.cpp lines
322-325): the queued-notification slot calls processThreadPushesUntil with
a null target. -/
def doThreadPushesIfNecessary (pushSet : List Nat) : Option (List PushEvent) :=
  processThreadPushesUntil none pushSet []

theorem processThreadPushesUntil_some_nil (r : Nat) (s : List Nat) :
    processThreadPushesUntil (some r) s [] =
      if r ∈ s then
        some (s.map PushEvent.pushed ++ [PushEvent.clearedAndBroadcast])
      else none := by
  by_cases hmem : r ∈ s
  · have hc : s.contains r = true := List.elem_iff.mpr hmem
    simp [processThreadPushesUntil, hc, hmem]
  · have hc : s.contains r = false := by
      rw [Bool.eq_false_iff]
      intro habs
      exact hmem (List.elem_iff.mp habs)
    simp [processThreadPushesUntil, hc, hmem]

theorem processThreadPushesUntil_some_cons (r : Nat) (s batch : List Nat)
    (rest : List (List Nat)) :
    processThreadPushesUntil (some r) s (batch :: rest) =
      if r ∈ s then
        some (s.map PushEvent.pushed ++ [PushEvent.clearedAndBroadcast])
      else
        match processThreadPushesUntil (some r) batch rest with
        | none => none
        | some tl =>
            some (s.map PushEvent.pushed ++
              PushEvent.clearedAndBroadcast :: PushEvent.waitedNeedsPush :: tl) := by
  by_cases hmem : r ∈ s
  · have hc : s.contains r = true := List.elem_iff.mpr hmem
    simp [processThreadPushesUntil, hc, hmem]
  · have hc : s.contains r = false := by
      rw [Bool.eq_false_iff]
      intro habs
      exact hmem (List.elem_iff.mp habs)
    cases hrec : processThreadPushesUntil (some r) batch rest with
    | none => simp [processThreadPushesUntil, hc, hmem, hrec]
    | some tl => simp [processThreadPushesUntil, hc, hmem, hrec]

/-- C6: the push protocol.  Worker side: wait-for-push-to-thread inserts
its runner into the push-queue and performs, in order, the needs-push
wake, the queued notification, and the block on were-pushed.  Controller
side: with a null target one drain happens — every queued runner is
pushed, the queue is cleared and were-pushed is broadcast — and the call
returns without ever waiting, whatever insertions are still to come; with
a target runner the call returns only with the target pushed, returns
after the first drain when the target is already queued, and terminates
exactly when the target is in the queue or in some later arrival batch. -/
theorem push_protocol_spec :
    (∀ s : List Nat, ∀ r : Nat,
      waitForPushToThread s r =
        (r :: s,
         [WorkerPushEvent.insertedIntoQueue r,
          WorkerPushEvent.wokeNeedsPush,
          WorkerPushEvent.emittedQueuedNotification,
          WorkerPushEvent.blockedOnWerePushed])) ∧
    (∀ s : List Nat, ∀ arrivals : List (List Nat),
      processThreadPushesUntil none s arrivals =
        some (s.map PushEvent.pushed ++ [PushEvent.clearedAndBroadcast])) ∧
    (∀ r : Nat, ∀ s : List Nat, ∀ arrivals : List (List Nat),
      ∀ evs : List PushEvent,
      processThreadPushesUntil (some r) s arrivals = some evs →
        PushEvent.pushed r ∈ evs) ∧
    (∀ r : Nat, ∀ s : List Nat,
      r ∈ s → processThreadPushesUntil (some r) s [] =
        some (s.map PushEvent.pushed ++ [PushEvent.clearedAndBroadcast])) ∧
    (∀ r : Nat, ∀ s : List Nat, ∀ arrivals : List (List Nat),
      (processThreadPushesUntil (some r) s arrivals).isSome = true ↔
        r ∈ s ∨ ∃ b ∈ arrivals, r ∈ b) := by
  refine ⟨?_, ?_, ?_, ?_, ?_⟩
  · intro s r
    rfl
  · intro s arrivals
    cases arrivals <;> simp [processThreadPushesUntil]
  · intro r s arrivals
    induction arrivals generalizing s with
    | nil =>
        intro evs h
        rw [processThreadPushesUntil_some_nil] at h
        by_cases hmem : r ∈ s
        · rw [if_pos hmem] at h
          cases h
          exact List.mem_append.mpr (Or.inl (List.mem_map_of_mem _ hmem))
        · rw [if_neg hmem] at h
          exact absurd h (by simp)
    | cons batch rest ih =>
        intro evs h
        rw [processThreadPushesUntil_some_cons] at h
        by_cases hmem : r ∈ s
        · rw [if_pos hmem] at h
          cases h
          exact List.mem_append.mpr (Or.inl (List.mem_map_of_mem _ hmem))
        · rw [if_neg hmem] at h
          cases hrec : processThreadPushesUntil (some r) batch rest with
          | none =>
              rw [hrec] at h
              exact absurd h (by simp)
          | some tl =>
              rw [hrec] at h
              cases h
              have hin := ih batch tl hrec
              exact List.mem_append.mpr (Or.inr (List.mem_cons_of_mem _
                (List.mem_cons_of_mem _ hin)))
  · intro r s hr
    rw [processThreadPushesUntil_some_nil, if_pos hr]
  · intro r s arrivals
    induction arrivals generalizing s with
    | nil =>
        rw [processThreadPushesUntil_some_nil]
        by_cases hmem : r ∈ s
        · simp [hmem]
        · simp [hmem]
    | cons batch rest ih =>
        rw [processThreadPushesUntil_some_cons]
        by_cases hmem : r ∈ s
        · simp [hmem]
        · rw [if_neg hmem]
          cases hrec : processThreadPushesUntil (some r) batch rest with
          | none =>
              have hrecn : (processThreadPushesUntil (some r) batch
                  rest).isSome = false := by
                rw [hrec]
                rfl
              have hnone := (ih batch)
              rw [hrecn] at hnone
              constructor
              · intro habs
                simp at habs
              · intro hin
                rcases hin with hin | ⟨b, hb, hrb⟩
                · exact absurd hin hmem
                · have hdisj : r ∈ batch ∨ ∃ c ∈ rest, r ∈ c := by
                    rcases List.mem_cons.mp hb with hb' | hb'
                    · subst hb'
                      exact Or.inl hrb
                    · exact Or.inr ⟨b, hb', hrb⟩
                  have := hnone.mpr hdisj
                  simp at this
          | some tl =>
              have hrecs : (processThreadPushesUntil (some r) batch
                  rest).isSome = true := by
                rw [hrec]
                rfl
              constructor
              · intro _
                rcases (ih batch).mp hrecs with hin | ⟨b, hb, hrb⟩
                · exact Or.inr ⟨batch, by simp, hin⟩
                · exact Or.inr ⟨b, List.mem_cons_of_mem _ hb, hrb⟩
              · intro _
                rfl

/-- Witness for C6 at concrete inputs: with target runner 1 not in the
initial queue [2] and arriving in the next batch, the pushed-1 event is in
the returned trace; and with runner 1 already queued the call returns
after one drain. -/
theorem push_protocol_spec_witness :
    PushEvent.pushed 1 ∈
      ([PushEvent.pushed 2, PushEvent.clearedAndBroadcast,
        PushEvent.waitedNeedsPush, PushEvent.pushed 1,
        PushEvent.clearedAndBroadcast] : List PushEvent) ∧
    processThreadPushesUntil (some 1) [1, 2] [] =
      some ([1, 2].map PushEvent.pushed ++ [PushEvent.clearedAndBroadcast]) :=
  ⟨push_protocol_spec.2.2.1 1 [2] [[1]]
      [PushEvent.pushed 2, PushEvent.clearedAndBroadcast,
        PushEvent.waitedNeedsPush, PushEvent.pushed 1,
        PushEvent.clearedAndBroadcast] (by decide),
   push_protocol_spec.2.2.2.1 1 [1, 2] (by decide)⟩

end ThinkerQt
